import Mathlib

/-!
# Verification of the hierarchical graph editor core

Shallow embedding of the editor's data model and operations:
the canvas viewport transform (`CanvasEngine`), the node tree model
(`Node` / `NodeSystem`), the connection graph (`Connection` /
`ConnectionSystem`) and the storage import validation (`StorageSystem`),
translated from the JavaScript source.  JavaScript numbers are modelled
as rationals (`ℚ`) where arithmetic matters and as integers for
timestamps; JavaScript's truthiness-driven dynamic values are modelled
by the `JSVal` type.
-/

/-- A JavaScript value, sufficient to model the truthiness checks and
dynamic property bags (`metadata`, `condition`, import documents) the
source performs.  `vundefined` is `undefined` (absent property). -/
inductive JSVal where
  | vundefined : JSVal
  | vnull : JSVal
  | vbool : Bool → JSVal
  | vnum : Int → JSVal
  | vstr : String → JSVal
  | vobj : List (String × JSVal) → JSVal

/-- JavaScript truthiness: `undefined`, `null`, `false`, `0` and `""`
are falsy; every object is truthy. -/
def JSVal.truthy : JSVal → Bool
  | .vundefined => false
  | .vnull => false
  | .vbool b => b
  | .vnum n => n != 0
  | .vstr s => s != ""
  | .vobj _ => true

/-- Property access `v[k]`: looks the key up in an object's fields,
yielding `undefined` when the key is absent or `v` is not an object. -/
def JSVal.get (v : JSVal) (k : String) : JSVal :=
  match v with
  | .vobj fs =>
    match fs.find? (fun p => p.1 = k) with
    | some p => p.2
    | none => .vundefined
  | _ => .vundefined

/-- JavaScript `a && b`: returns `b` when `a` is truthy, else `a`. -/
def jsAnd (a b : JSVal) : JSVal :=
  if a.truthy then b else a

/-! ## Viewport / CanvasEngine

From `CanvasEngine` in the source: the viewport record
`{x, y, zoom, minZoom: 0.1, maxZoom: 3}`, the coordinate transforms
`screenToWorld` / `worldToScreen`, and the wheel-zoom handler `onWheel`.
-/

/-- The viewport state of `CanvasEngine`: pan offset (`x`, `y`), the
zoom scalar and its configured bounds. -/
structure Viewport where
  x : ℚ
  y : ℚ
  zoom : ℚ
  minZoom : ℚ
  maxZoom : ℚ
deriving DecidableEq

/-- The viewport as the constructor initializes it
(`{x: 0, y: 0, zoom: 1, minZoom: 0.1, maxZoom: 3}`). -/
def Viewport.initial : Viewport :=
  ⟨0, 0, 1, 1/10, 3⟩

/-- Source `CanvasEngine.screenToWorld`:
`((screenX - viewport.x) / zoom, (screenY - viewport.y) / zoom)`. -/
def screenToWorld (v : Viewport) (p : ℚ × ℚ) : ℚ × ℚ :=
  ((p.1 - v.x) / v.zoom, (p.2 - v.y) / v.zoom)

/-- Source `CanvasEngine.worldToScreen`:
`(worldX * zoom + viewport.x, worldY * zoom + viewport.y)`. -/
def worldToScreen (v : Viewport) (p : ℚ × ℚ) : ℚ × ℚ :=
  (p.1 * v.zoom + v.x, p.2 * v.zoom + v.y)

/-- The wheel factor `e.deltaY > 0 ? 0.9 : 1.1` from `onWheel`. -/
def zoomDelta (deltaY : ℚ) : ℚ :=
  if deltaY > 0 then 9/10 else 11/10

/-- Source `CanvasEngine.onWheel`: computes the world point under the mouse,
multiplies the zoom by the wheel factor, and — only when the new zoom
lies within `[minZoom, maxZoom]` — installs it and shifts the pan by
the induced world-position drift scaled back to screen space.  When
the new zoom is out of bounds the viewport is left untouched. -/
def onWheel (v : Viewport) (mouse : ℚ × ℚ) (deltaY : ℚ) : Viewport :=
  let worldBefore := screenToWorld v mouse
  let newZoom := v.zoom * zoomDelta deltaY
  if v.minZoom ≤ newZoom ∧ newZoom ≤ v.maxZoom then
    let v1 : Viewport := { v with zoom := newZoom }
    let worldAfter := screenToWorld v1 mouse
    { v1 with
      x := v1.x + (worldAfter.1 - worldBefore.1) * v1.zoom,
      y := v1.y + (worldAfter.2 - worldBefore.2) * v1.zoom }
  else
    v

/-! ## Node tree model

From the `Node` class in the source: the node record with its metadata
bag, child list and connection-id list, the tree operations
(`addChild`, `removeChild`, `findChildById`, `hasChildren`) and the
serialization pair `toJSON` / `fromJSON`.  A serialized document has
the same field structure as a node, so the document side is the
isomorphic type `NodeDoc`; `Node.toJSONList` / `Node.fromJSONList` are
the element-wise maps the source spells `children.map(...)`.  In the
typed document shape every field is present with the type the exporter
produces, so the JavaScript fallbacks `data.connections || []`,
`data.metadata || node.metadata` and the guard `if (data.children)`
always take their data branch (arrays and non-null objects are truthy).
-/

/-- The node `metadata` record
`{description, code, createdAt, modifiedAt}`. -/
structure NodeMeta where
  description : String
  code : String
  createdAt : Int
  modifiedAt : Int
deriving DecidableEq

/-- An in-memory `Node`: id, name, type tag, position, owned children,
connection ids, metadata — in the constructor's field order. -/
inductive Node where
  | mk : String → String → String → Int → Int → List Node → List String → NodeMeta → Node

/-- A serialized node document: the nested record `Node.toJSON`
produces and `Node.fromJSON` consumes, field for field. -/
inductive NodeDoc where
  | mk : String → String → String → Int → Int → List NodeDoc → List String → NodeMeta → NodeDoc

def Node.id : Node → String
  | .mk i _ _ _ _ _ _ _ => i

def Node.name : Node → String
  | .mk _ n _ _ _ _ _ _ => n

def Node.type : Node → String
  | .mk _ _ t _ _ _ _ _ => t

def Node.x : Node → Int
  | .mk _ _ _ x _ _ _ _ => x

def Node.y : Node → Int
  | .mk _ _ _ _ y _ _ _ => y

def Node.children : Node → List Node
  | .mk _ _ _ _ _ cs _ _ => cs

def Node.connections : Node → List String
  | .mk _ _ _ _ _ _ conns _ => conns

def Node.metadata : Node → NodeMeta
  | .mk _ _ _ _ _ _ _ m => m

/-- Source `new Node(name, type, x, y)`: fresh id (supplied by the ambient id
generator), empty children and connections, default metadata with both
timestamps set to the current time. -/
def Node.new (freshId name type : String) (x y : Int) (now : Int) : Node :=
  .mk freshId name type x y [] [] ⟨"", "", now, now⟩

/-- Source `Node.hasChildren`: `children.length > 0`. -/
def Node.hasChildren (n : Node) : Bool :=
  decide (0 < n.children.length)

/-- Source `Node.findChildById`: linear scan of the direct children only. -/
def Node.findChildById (p : Node) (nodeId : String) : Option Node :=
  p.children.find? (fun c => c.id = nodeId)

/-- Source `Node.addChild`: appends to the child list and bumps
`metadata.modifiedAt`. -/
def Node.addChild (p : Node) (c : Node) (now : Int) : Node :=
  match p with
  | .mk i n t x y cs conns m =>
    .mk i n t x y (cs ++ [c]) conns { m with modifiedAt := now }

/-- The `splice(index, 1)` step of `removeChild`: drops the first child
whose id matches. -/
def removeFirstById : List Node → String → List Node
  | [], _ => []
  | c :: rest, nodeId =>
    if c.id = nodeId then rest else c :: removeFirstById rest nodeId

/-- Source `Node.removeChild`: removes the first child with the given id and
bumps `metadata.modifiedAt`, returning whether a removal occurred. -/
def Node.removeChild (p : Node) (nodeId : String) (now : Int) : Bool × Node :=
  match p with
  | .mk i n t x y cs conns m =>
    if cs.any (fun c => c.id = nodeId) then
      (true, .mk i n t x y (removeFirstById cs nodeId) conns { m with modifiedAt := now })
    else
      (false, p)

mutual

/-- Source `Node.toJSON`: the ordered nested record (id, name, type, x, y,
children recursively, connection ids, metadata). -/
def Node.toJSON : Node → NodeDoc
  | .mk i n t x y cs conns m => .mk i n t x y (Node.toJSONList cs) conns m

/-- Source `children.map(c => c.toJSON())`. -/
def Node.toJSONList : List Node → List NodeDoc
  | [] => []
  | c :: rest => Node.toJSON c :: Node.toJSONList rest

end

mutual

/-- Source `Node.fromJSON`: rebuilds the node from the document; with every
field present and typed, each `||` fallback keeps the document's value
and the children are parsed recursively. -/
def Node.fromJSON : NodeDoc → Node
  | .mk i n t x y cs conns m => .mk i n t x y (Node.fromJSONList cs) conns m

/-- Source `data.children.map(c => Node.fromJSON(c))`. -/
def Node.fromJSONList : List NodeDoc → List Node
  | [] => []
  | c :: rest => Node.fromJSON c :: Node.fromJSONList rest

end

/-! ## Connection records

From the `Connection` class in `connection-system.js`: the edge record
and its serialization pair.  Unlike the node side, `fromJSON` here
normalizes falsy field values: `data.type || 'normal'`,
`data.label || ''`, `data.condition || null` and
`data.metadata || conn.metadata`.
-/

/-- The connection `metadata` record `{createdAt}`. -/
structure ConnMeta where
  createdAt : Int
deriving DecidableEq

/-- An in-memory `Connection`. -/
structure Connection where
  id : String
  sourceId : String
  targetId : String
  type : String
  label : String
  condition : JSVal
  metadata : ConnMeta

/-- A serialized connection document: what `Connection.toJSON` emits
(`{id, sourceId, targetId, type, label, condition, metadata}`). -/
structure ConnDoc where
  id : String
  sourceId : String
  targetId : String
  type : String
  label : String
  condition : JSVal
  metadata : ConnMeta

/-- Source `new Connection(sourceId, targetId)`: fresh id, type `'normal'`,
empty label, null condition, metadata stamped with the current time. -/
def Connection.new (sourceId targetId freshId : String) (now : Int) : Connection :=
  ⟨freshId, sourceId, targetId, "normal", "", .vnull, ⟨now⟩⟩

def Connection.toJSON (c : Connection) : ConnDoc :=
  ⟨c.id, c.sourceId, c.targetId, c.type, c.label, c.condition, c.metadata⟩

/-- Source `Connection.fromJSON`: constructs a connection from
`data.sourceId` / `data.targetId`, then overwrites the fields, with
`||` fallbacks on `type`, `label`, `condition` and `metadata` (for a
string, `s || d` is `d` exactly when `s` is empty; `metadata` is a
record and records are truthy, so it is always kept). -/
def Connection.fromJSON (d : ConnDoc) : Connection :=
  { id := d.id
    sourceId := d.sourceId
    targetId := d.targetId
    type := if d.type = "" then "normal" else d.type
    label := if d.label = "" then "" else d.label
    condition := if d.condition.truthy then d.condition else .vnull
    metadata := d.metadata }

/-! ## Connection graph

From the `ConnectionSystem` class: the store is a `Map` from source
node id to the ordered list of connections leaving that node, here an
insertion-ordered association list.  The interactive-creation state
machine (`startConnection` / `updateTempConnection` /
`finishConnection` / `cancelConnection`) is carried in the same record.
The JavaScript system also mutates the `connections` arrays of the
endpoint node objects; those shared arrays are modelled by the
`nodeConns` component, keyed by node id.
-/

/-- The store `Map<sourceId, Connection[]>` as an insertion-ordered
association list. -/
abbrev ConnMap := List (String × List Connection)

/-- Source `Map.get`: the bucket for a key, `none` when absent. -/
def alGet : ConnMap → String → Option (List Connection)
  | [], _ => none
  | (k', b) :: rest, k => if k' = k then some b else alGet rest k

/-- Source `if (!map.has(k)) map.set(k, []); map.get(k).push(c)`: appends `c`
to the bucket for `k`, creating the bucket at the end (Map insertion
order) when absent. -/
def bucketPush : ConnMap → String → Connection → ConnMap
  | [], k, c => [(k, [c])]
  | (k', b) :: rest, k, c =>
    if k' = k then (k', b ++ [c]) :: rest else (k', b) :: bucketPush rest k c

/-- Source `ConnectionSystem.connectionExists(sourceId, targetId)`: looks up
the source's bucket and scans it for the target id. -/
def connectionExists (m : ConnMap) (sourceId targetId : String) : Bool :=
  match alGet m sourceId with
  | some b => b.any (fun c => c.targetId = targetId)
  | none => false

/-- The number of stored connections with the given ordered
(source, target) pair, across all buckets. -/
def countConn (m : ConnMap) (s t : String) : Nat :=
  (m.map (fun e => (e.2.filter (fun c => c.sourceId = s && c.targetId = t)).length)).sum

/-- Well-formedness of the store as the system builds it: bucket keys
are distinct (`Map` semantics) and every connection sits in the bucket
of its own source id. -/
def BucketsWF (m : ConnMap) : Prop :=
  (m.map Prod.fst).Nodup ∧ ∀ e ∈ m, ∀ c ∈ e.2, c.sourceId = e.1

/-- Append a connection id to a node's `connections` array
(`node.connections.push(connection.id)`), keyed by node id. -/
def pushNodeConn : List (String × List String) → String → String → List (String × List String)
  | [], nid, cid => [(nid, [cid])]
  | (k, l) :: rest, nid, cid =>
    if k = nid then (k, l ++ [cid]) :: rest else (k, l) :: pushNodeConn rest nid cid

/-- The `ConnectionSystem` state: the bucket store, the
interactive-creation state machine fields, and the endpoint nodes'
`connections` arrays the system dual-writes. -/
structure ConnectionSystem where
  connections : ConnMap
  isConnecting : Bool
  connectionStart : Option String
  tempConnectionEnd : Option (ℚ × ℚ)
  nodeConns : List (String × List String)

/-- Source `startConnection(sourceNode)`: enters the pending state, records
the source, clears the stale preview endpoint. -/
def ConnectionSystem.startConnection (cs : ConnectionSystem) (sourceId : String) :
    ConnectionSystem :=
  { cs with isConnecting := true, connectionStart := some sourceId,
            tempConnectionEnd := none }

/-- Source `updateTempConnection(worldX, worldY)`: records the preview
endpoint, only while connecting. -/
def ConnectionSystem.updateTempConnection (cs : ConnectionSystem) (wx wy : ℚ) :
    ConnectionSystem :=
  if cs.isConnecting then { cs with tempConnectionEnd := some (wx, wy) } else cs

/-- Source `cancelConnection()`: back to the idle state. -/
def ConnectionSystem.cancelConnection (cs : ConnectionSystem) : ConnectionSystem :=
  { cs with isConnecting := false, connectionStart := none, tempConnectionEnd := none }

/-- Source `finishConnection(targetNode)`: guarded by
`isConnecting && connectionStart && targetNode`; rejects a self target,
then a duplicate ordered pair (each time cancelling and returning
null); otherwise allocates the connection (fresh id and timestamp are
supplied by the ambient generators), appends it to the source's
bucket, registers its id on both endpoint nodes, and cancels the
pending state. -/
def ConnectionSystem.finishConnection (cs : ConnectionSystem) (target : Option String)
    (freshId : String) (now : Int) : Option Connection × ConnectionSystem :=
  match cs.isConnecting, cs.connectionStart, target with
  | true, some s, some t =>
    if s = t then
      (none, cs.cancelConnection)
    else if connectionExists cs.connections s t then
      (none, cs.cancelConnection)
    else
      let c := Connection.new s t freshId now
      let cs1 := { cs with
        connections := bucketPush cs.connections s c,
        nodeConns := pushNodeConn (pushNodeConn cs.nodeConns s freshId) t freshId }
      (some c, cs1.cancelConnection)
  | _, _, _ => (none, cs.cancelConnection)

/-- The argument to `ConnectionSystem.importFromJSON`: `null`,
`undefined`, a truthy non-array value, or an array of connection
documents. -/
inductive ImportArg where
  | jnull
  | jundefined
  | jtruthyNonArray
  | jarray (docs : List ConnDoc)

/-- The `data.forEach(...)` loop of `importFromJSON`: parses each
document and pushes the result into the bucket of its source id,
starting from the cleared store. -/
def importConnections (docs : List ConnDoc) : ConnMap :=
  docs.foldl (fun m cd => bucketPush m (Connection.fromJSON cd).sourceId (Connection.fromJSON cd)) []

/-- Source `ConnectionSystem.importFromJSON(data)`: unconditionally clears the
store, then — only when `data` is a (truthy) array — refills it with
the parsed entries grouped by source id. -/
def ConnectionSystem.importFromJSON (cs : ConnectionSystem) (data : ImportArg) :
    ConnectionSystem :=
  match data with
  | .jarray docs => { cs with connections := importConnections docs }
  | _ => { cs with connections := ([] : ConnMap) }

/-! ## Node system and navigation state machine

From the `NodeSystem` class: the root/current node, the breadcrumb
`navigationStack` and the three navigation transitions.  The rendering
hover state is not modelled.  The JavaScript transitions return a
boolean and mutate in place; here they return the flag paired with the
new state.
-/

/-- The (initialized) `NodeSystem` state. -/
structure NodeSystem where
  rootNode : Node
  currentNode : Node
  navigationStack : List Node
  selectedNode : Option Node

/-- Source `NodeSystem.initialize(domainName)`: a fresh root node becomes the
current node and the whole navigation stack. -/
def NodeSystem.init (freshId domainName : String) (now : Int) : NodeSystem :=
  ⟨Node.new freshId domainName "domain" 0 0 now,
    Node.new freshId domainName "domain" 0 0 now,
    [Node.new freshId domainName "domain" 0 0 now], none⟩

/-- Source `navigateToNode(node)`: guarded by `node && node.hasChildren()`;
pushes the node, makes it current, clears the selection. -/
def NodeSystem.navigateToNode (st : NodeSystem) (node : Option Node) :
    Bool × NodeSystem :=
  match node with
  | some n =>
    if n.hasChildren then
      (true, { st with currentNode := n,
                       navigationStack := st.navigationStack ++ [n],
                       selectedNode := none })
    else (false, st)
  | none => (false, st)

/-- Source `navigateBack()`: pops the stack when its length exceeds 1 and
makes the new top current; a no-op at the root. -/
def NodeSystem.navigateBack (st : NodeSystem) : Bool × NodeSystem :=
  if 1 < st.navigationStack.length then
    (true, { st with navigationStack := st.navigationStack.dropLast,
                     currentNode := st.navigationStack.dropLast.getLastD st.currentNode,
                     selectedNode := none })
  else (false, st)

/-- Source `navigateToStackIndex(index)`: for `0 ≤ index < length`, truncates
the stack to `index + 1` entries (`slice(0, index + 1)`) and makes the
new top current. -/
def NodeSystem.navigateToStackIndex (st : NodeSystem) (index : Int) :
    Bool × NodeSystem :=
  if 0 ≤ index ∧ index < st.navigationStack.length then
    (true, { st with
        navigationStack := st.navigationStack.take (index.toNat + 1),
        currentNode := (st.navigationStack.take (index.toNat + 1)).getLastD st.currentNode,
        selectedNode := none })
  else (false, st)

/-- The navigation invariant the specification states: the stack is
non-empty, the current node is its top, and each adjacent (parent,
child) pair of the stack satisfies `parent.children contains child`. -/
def NavInvariant (st : NodeSystem) : Prop :=
  st.navigationStack ≠ [] ∧
    st.navigationStack.getLast? = some st.currentNode ∧
    List.Chain' (fun p c => c ∈ p.children) st.navigationStack

/-- One navigation transition, with its argument. -/
inductive NavOp where
  | toNode : Node → NavOp
  | back : NavOp
  | toIndex : Int → NavOp

def NodeSystem.applyNav (st : NodeSystem) : NavOp → NodeSystem
  | .toNode n => (st.navigateToNode (some n)).2
  | .back => st.navigateBack.2
  | .toIndex i => (st.navigateToStackIndex i).2

def NodeSystem.runNav (st : NodeSystem) : List NavOp → NodeSystem
  | [] => st
  | op :: rest => (st.applyNav op).runNav rest

/-- The caller discipline the UI obeys: `navigateToNode` is only ever
invoked on a hit-tested node of the current level, i.e. a direct child
of the then-current node. -/
def DisciplinedOps (st : NodeSystem) : List NavOp → Prop
  | [] => True
  | op :: rest =>
    (match op with
     | .toNode n => n ∈ st.currentNode.children
     | _ => True) ∧ DisciplinedOps (st.applyNav op) rest

/-- Source `NodeSystem.deleteNode(nodeId)`: delegates to the current node's
`removeChild`; the in-place mutation of the shared node object is
modelled by replacing `currentNode`.  Nothing on this path touches the
connection system. -/
def NodeSystem.deleteNode (st : NodeSystem) (nodeId : String) (now : Int) :
    Bool × NodeSystem :=
  ((st.currentNode.removeChild nodeId now).1,
    { st with currentNode := (st.currentNode.removeChild nodeId now).2 })

/-- The application state the shell wires together: the tree and the
connection graph. -/
structure App where
  nodeSystem : NodeSystem
  connectionSystem : ConnectionSystem

/-- Source `deleteCurrentNode()` from the application shell: when a node is
selected and `deleteNode` succeeds, it clears the selection and emits
the success notification.  It performs no connection cleanup. -/
def App.deleteCurrentNode (app : App) (now : Int) : App × List (String × String) :=
  match app.nodeSystem.selectedNode with
  | some node =>
    if (app.nodeSystem.deleteNode node.id now).1 then
      ({ app with nodeSystem :=
            { (app.nodeSystem.deleteNode node.id now).2 with selectedNode := none } },
        [("Node deleted", "success")])
    else
      ({ app with nodeSystem := (app.nodeSystem.deleteNode node.id now).2 }, [])
  | none => (app, [])

/-! ## Storage import validation

From `StorageSystem` in `storage.js`: `validateImportData` is the
JavaScript conjunction
`data && data.version && data.rootNode && data.rootNode.id && data.rootNode.name`,
and `importFromFile` applies the import callback exactly when that
value is truthy, otherwise notifying `'Invalid file format'`.  The
state the callback would mutate (tree and connection graph) is
abstracted as `σ`; on rejection it is returned untouched. -/

/-- Source `StorageSystem.validateImportData(data)` (JavaScript `&&` chains
return the first falsy operand, or the last operand). -/
def validateImportData (data : JSVal) : JSVal :=
  jsAnd (jsAnd (jsAnd (jsAnd data (data.get "version")) (data.get "rootNode"))
    ((data.get "rootNode").get "id")) ((data.get "rootNode").get "name")

/-- The minimum acceptance contract as the specification words it: the
document and the four required paths are all truthy. -/
def validSpecImport (data : JSVal) : Bool :=
  data.truthy && (data.get "version").truthy && (data.get "rootNode").truthy &&
    ((data.get "rootNode").get "id").truthy && ((data.get "rootNode").get "name").truthy

/-- Source `StorageSystem.importFromFile(callback)`, after the chosen file has
been parsed to `data`. -/
def importFromFile {σ : Type} (data : JSVal) (callback : σ → σ) (st : σ) :
    σ × List (String × String) :=
  if (validateImportData data).truthy then (callback st, [])
  else (st, [("Invalid file format", "error")])

/-! ## Lemmas and claim theorems -/

theorem truthy_jsAnd (a b : JSVal) : (jsAnd a b).truthy = (a.truthy && b.truthy) := by
  unfold jsAnd
  by_cases h : a.truthy <;> simp [h]

theorem toJSONList_eq_map (l : List Node) : Node.toJSONList l = l.map Node.toJSON := by
  induction l with
  | nil => rfl
  | cons c rest ih => rw [Node.toJSONList, List.map_cons, ih]

theorem fromJSONList_eq_map (l : List NodeDoc) :
    Node.fromJSONList l = l.map Node.fromJSON := by
  induction l with
  | nil => rfl
  | cons c rest ih => rw [Node.fromJSONList, List.map_cons, ih]

mutual

theorem node_roundtrip : ∀ d : NodeDoc, Node.toJSON (Node.fromJSON d) = d
  | .mk i n t x y cs conns m => by
    rw [Node.fromJSON, Node.toJSON, nodeList_roundtrip cs]

theorem nodeList_roundtrip :
    ∀ l : List NodeDoc, Node.toJSONList (Node.fromJSONList l) = l
  | [] => by rw [Node.fromJSONList, Node.toJSONList]
  | c :: rest => by
    rw [Node.fromJSONList, Node.toJSONList, node_roundtrip c, nodeList_roundtrip rest]

end

theorem alGet_bucketPush_same (m : ConnMap) (k : String) (c : Connection) :
    alGet (bucketPush m k c) k = some ((alGet m k).getD [] ++ [c]) := by
  induction m with
  | nil => simp [bucketPush, alGet]
  | cons e rest ih =>
    obtain ⟨k', b⟩ := e
    by_cases h : k' = k
    · simp [bucketPush, alGet, h]
    · simp [bucketPush, alGet, h, ih]

theorem alGet_bucketPush_ne (m : ConnMap) (k k' : String) (c : Connection)
    (h : k' ≠ k) : alGet (bucketPush m k c) k' = alGet m k' := by
  induction m with
  | nil => simp [bucketPush, alGet, Ne.symm h]
  | cons e rest ih =>
    obtain ⟨k₀, b⟩ := e
    by_cases h0 : k₀ = k
    · subst h0
      simp [bucketPush, alGet, Ne.symm h]
    · simp only [bucketPush, if_neg h0, alGet]
      by_cases h1 : k₀ = k' <;> simp [h1, ih]

theorem connectionExists_bucketPush (m : ConnMap) (s t : String) (c : Connection)
    (h : c.targetId = t) : connectionExists (bucketPush m s c) s t = true := by
  unfold connectionExists
  rw [alGet_bucketPush_same]
  simp [h]

theorem countConn_bucketPush (m : ConnMap) (k : String) (c : Connection) (s t : String) :
    countConn (bucketPush m k c) s t =
      countConn m s t + (if c.sourceId = s && c.targetId = t then 1 else 0) := by
  induction m with
  | nil =>
    simp only [bucketPush, countConn, List.map_cons, List.map_nil, List.sum_cons,
      List.sum_nil]
    cases hb : (decide (c.sourceId = s) && decide (c.targetId = t)) <;>
      simp [List.filter_cons, hb]
  | cons e rest ih =>
    obtain ⟨k', b⟩ := e
    by_cases h : k' = k
    · simp only [bucketPush, if_pos h, countConn, List.map_cons, List.sum_cons,
        List.filter_append, List.length_append]
      cases hb : (decide (c.sourceId = s) && decide (c.targetId = t)) <;>
        (simp [List.filter_cons, hb]; try omega)
    · simp only [bucketPush, if_neg h, countConn, List.map_cons, List.sum_cons] at *
      omega

theorem countConn_zero_of_sources_ne (m : ConnMap) (s t : String)
    (h : ∀ e ∈ m, ∀ c ∈ e.2, c.sourceId ≠ s) : countConn m s t = 0 := by
  induction m with
  | nil => rfl
  | cons e rest ih =>
    obtain ⟨k, b⟩ := e
    simp only [countConn, List.map_cons, List.sum_cons]
    have hb : (b.filter (fun c => c.sourceId = s && c.targetId = t)) = [] := by
      rw [List.filter_eq_nil_iff]
      intro c hc
      simp [h (k, b) (List.mem_cons_self _ _) c hc]
    rw [hb]
    have := ih (fun e he c hc => h e (List.mem_cons_of_mem _ he) c hc)
    simpa [countConn] using this

theorem countConn_zero_of_not_exists (m : ConnMap) (s t : String)
    (hWF : BucketsWF m) (hex : connectionExists m s t = false) : countConn m s t = 0 := by
  induction m with
  | nil => rfl
  | cons e rest ih =>
    obtain ⟨k, b⟩ := e
    obtain ⟨hnd, hsrc⟩ := hWF
    simp only [List.map_cons, List.nodup_cons] at hnd
    have hWFrest : BucketsWF rest :=
      ⟨hnd.2, fun e he c hc => hsrc e (List.mem_cons_of_mem _ he) c hc⟩
    by_cases hk : k = s
    · have hbany : ∀ x ∈ b, ¬ x.targetId = t := by
        unfold connectionExists at hex
        simp only [alGet, hk, eq_self_iff_true, if_true] at hex
        simpa using hex
      have hb : (b.filter (fun c => c.sourceId = s && c.targetId = t)) = [] := by
        rw [List.filter_eq_nil_iff]
        intro c hc
        simp [hbany c hc]
      have hrest : countConn rest s t = 0 := by
        apply countConn_zero_of_sources_ne
        intro e he c hc
        rw [hsrc e (List.mem_cons_of_mem _ he) c hc]
        intro hes
        apply hnd.1
        rw [hk, ← hes]
        exact List.mem_map_of_mem Prod.fst he
      simp only [countConn, List.map_cons, List.sum_cons, hb, List.length_nil]
      simpa [countConn] using hrest
    · have hb : (b.filter (fun c => c.sourceId = s && c.targetId = t)) = [] := by
        rw [List.filter_eq_nil_iff]
        intro c hc
        have := hsrc (k, b) (List.mem_cons_self _ _) c hc
        simp [this, hk]
      have hexrest : connectionExists rest s t = false := by
        unfold connectionExists at hex ⊢
        simp only [alGet] at hex
        rw [if_neg hk] at hex
        exact hex
      have := ih hWFrest hexrest
      simp only [countConn, List.map_cons, List.sum_cons, hb, List.length_nil]
      simpa [countConn] using this

theorem getLast?_eq_some_getLastD {α : Type} (l : List α) (d : α) (h : l ≠ []) :
    l.getLast? = some (l.getLastD d) := by
  rw [List.getLastD_eq_getLast?, List.getLast?_eq_getLast _ h]
  rfl

theorem navigateToNode_inv (st : NodeSystem) (n : Node) (hInv : NavInvariant st)
    (hchild : n ∈ st.currentNode.children) :
    NavInvariant (st.navigateToNode (some n)).2 := by
  obtain ⟨hne, hlast, hchain⟩ := hInv
  unfold NodeSystem.navigateToNode
  by_cases h : n.hasChildren
  · simp only [h, if_true]
    refine ⟨by simp, by simp [List.getLast?_concat], ?_⟩
    refine List.chain'_append.2 ⟨hchain, List.chain'_singleton n, ?_⟩
    intro x hx y hy
    rw [hlast] at hx
    simp only [List.head?_cons, Option.mem_def, Option.some.injEq] at hx hy
    rw [hx, hy] at hchild
    exact hchild
  · simp only [h, if_false]
    exact ⟨hne, hlast, hchain⟩

theorem navigateBack_inv (st : NodeSystem) (hInv : NavInvariant st) :
    NavInvariant st.navigateBack.2 := by
  obtain ⟨hne, hlast, hchain⟩ := hInv
  unfold NodeSystem.navigateBack
  by_cases h : 1 < st.navigationStack.length
  · simp only [h, if_true]
    have hne' : st.navigationStack.dropLast ≠ [] := by
      have := List.length_dropLast st.navigationStack
      rw [← List.length_pos]
      omega
    exact ⟨hne', getLast?_eq_some_getLastD _ _ hne', hchain.init⟩
  · simp only [h, if_false]
    exact ⟨hne, hlast, hchain⟩

theorem navigateToStackIndex_inv (st : NodeSystem) (i : Int) (hInv : NavInvariant st) :
    NavInvariant (st.navigateToStackIndex i).2 := by
  obtain ⟨hne, hlast, hchain⟩ := hInv
  unfold NodeSystem.navigateToStackIndex
  by_cases h : 0 ≤ i ∧ i < st.navigationStack.length
  · simp only [h, if_true]
    have hlenpos : 0 < st.navigationStack.length := List.length_pos.2 hne
    have hne' : st.navigationStack.take (i.toNat + 1) ≠ [] := by
      have := List.length_take (i.toNat + 1) st.navigationStack
      rw [← List.length_pos]
      omega
    exact ⟨hne', getLast?_eq_some_getLastD _ _ hne', hchain.take _⟩
  · simp only [h, if_false]
    exact ⟨hne, hlast, hchain⟩

theorem navInvariant_preserved (ops : List NavOp) (st : NodeSystem)
    (hInv : NavInvariant st) (hD : DisciplinedOps st ops) :
    NavInvariant (st.runNav ops) := by
  induction ops generalizing st with
  | nil => exact hInv
  | cons op rest ih =>
    obtain ⟨hop, hrest⟩ := hD
    cases op with
    | toNode n => exact ih _ (navigateToNode_inv st n hInv hop) hrest
    | back => exact ih _ (navigateBack_inv st hInv) hrest
    | toIndex i => exact ih _ (navigateToStackIndex_inv st i hInv) hrest

theorem init_navInvariant (freshId domainName : String) (now : Int) :
    NavInvariant (NodeSystem.init freshId domainName now) := by
  exact ⟨by simp [NodeSystem.init], rfl, by simp [NodeSystem.init]⟩

/-- C1 counterexample: a connection document with every field present
whose `type` is the (falsy) empty string does not survive the round
trip — `fromJSON` replaces the type by `'normal'`. -/
theorem serialization_roundtrip_counterexample :
    Connection.toJSON (Connection.fromJSON ⟨"c1", "a", "b", "", "", .vnull, ⟨0⟩⟩) ≠
      (⟨"c1", "a", "b", "", "", .vnull, ⟨0⟩⟩ : ConnDoc) := by
  intro h
  have h2 := congrArg ConnDoc.type h
  simp [Connection.fromJSON, Connection.toJSON] at h2

/-- C1 (amended): serialization round-trips field for field for every
node document, and for every connection document whose `type` is a
non-empty string and whose `condition` is null or truthy (the source
substitutes `'normal'` for a falsy type and `null` for a falsy
condition). -/
theorem serialization_roundtrip (d : NodeDoc) (c : ConnDoc)
    (htype : c.type ≠ "")
    (hcond : c.condition = JSVal.vnull ∨ c.condition.truthy = true) :
    Node.toJSON (Node.fromJSON d) = d ∧
      Connection.toJSON (Connection.fromJSON c) = c := by
  refine ⟨node_roundtrip d, ?_⟩
  have ht : (if c.type = "" then "normal" else c.type) = c.type := if_neg htype
  have hl : (if c.label = "" then "" else c.label) = c.label := by
    by_cases h : c.label = "" <;> simp [h]
  have hc : (if c.condition.truthy then c.condition else .vnull) = c.condition := by
    rcases hcond with h | h
    · rw [h]; rfl
    · rw [if_pos h]
  simp only [Connection.fromJSON, Connection.toJSON]
  rw [ht, hl, hc]

theorem serialization_roundtrip_witness :
    (("normal" : String) ≠ "" ∧
        ((JSVal.vnull = JSVal.vnull) ∨ (JSVal.vnull.truthy = true))) ∧
      (Node.toJSON (Node.fromJSON (.mk "r" "Root" "domain" 0 0
            [.mk "b" "B" "process" (-200) (-100) [] ["c1"] ⟨"", "", 1, 2⟩] [] ⟨"d", "c", 3, 4⟩)) =
          .mk "r" "Root" "domain" 0 0
            [.mk "b" "B" "process" (-200) (-100) [] ["c1"] ⟨"", "", 1, 2⟩] [] ⟨"d", "c", 3, 4⟩ ∧
        Connection.toJSON (Connection.fromJSON ⟨"c1", "b", "c", "normal", "flow", .vnull, ⟨5⟩⟩) =
          ⟨"c1", "b", "c", "normal", "flow", .vnull, ⟨5⟩⟩) :=
  ⟨⟨by decide, Or.inl rfl⟩,
    serialization_roundtrip _ _ (by decide) (Or.inl rfl)⟩

/-- C2: the two transforms are exact inverses for any fixed viewport
with nonzero zoom. -/
theorem screenToWorld_worldToScreen (v : Viewport) (p : ℚ × ℚ)
    (hz : v.zoom ≠ 0) : screenToWorld v (worldToScreen v p) = p := by
  unfold screenToWorld worldToScreen
  apply Prod.ext <;> (simp only []; field_simp)

theorem screenToWorld_worldToScreen_witness :
    Viewport.initial.zoom ≠ 0 ∧
      screenToWorld Viewport.initial (worldToScreen Viewport.initial (5, -7)) = (5, -7) :=
  ⟨by decide, screenToWorld_worldToScreen Viewport.initial (5, -7) (by decide)⟩

/-- C4 counterexample: one zoom-out notch at zoom 1 multiplies the zoom
by 0.9 — not by 1/1.1 as claimed — and a zoom-in notch at zoom 2.9
(which would reach 3.19 > maxZoom) leaves the zoom at 2.9 instead of
clamping it to the bound 3. -/
theorem onWheel_zoom_counterexample :
    ((onWheel ⟨0, 0, 1, 1/10, 3⟩ (0, 0) 1).zoom = 9/10 ∧ (9 : ℚ)/10 ≠ 1/(11/10)) ∧
      ((onWheel ⟨0, 0, 29/10, 1/10, 3⟩ (0, 0) (-1)).zoom = 29/10 ∧ (29 : ℚ)/10 ≠ 3) := by
  refine ⟨⟨?_, by norm_num⟩, ⟨?_, by norm_num⟩⟩ <;>
    simp [onWheel, zoomDelta, screenToWorld] <;> norm_num

/-- C4 (amended): a wheel notch multiplies the zoom by 1.1 (zoom-in,
`deltaY ≤ 0`) or by 0.9 (zoom-out, `deltaY > 0`); the product is
installed only when it lies within `[minZoom, maxZoom]`, and otherwise
the zoom is left unchanged (rejected, not clamped).  In particular a
zoom that starts within bounds stays within bounds. -/
theorem onWheel_zoom_step (v : Viewport) (mouse : ℚ × ℚ) (deltaY : ℚ)
    (hv : v.minZoom ≤ v.zoom ∧ v.zoom ≤ v.maxZoom) :
    ((onWheel v mouse deltaY).zoom =
        if v.minZoom ≤ v.zoom * zoomDelta deltaY ∧ v.zoom * zoomDelta deltaY ≤ v.maxZoom
        then v.zoom * zoomDelta deltaY
        else v.zoom) ∧
      v.minZoom ≤ (onWheel v mouse deltaY).zoom ∧
        (onWheel v mouse deltaY).zoom ≤ v.maxZoom := by
  refine ⟨?_, ?_, ?_⟩ <;> unfold onWheel <;>
    by_cases h : v.minZoom ≤ v.zoom * zoomDelta deltaY ∧ v.zoom * zoomDelta deltaY ≤ v.maxZoom <;>
      simp [h, hv.1, hv.2]

theorem onWheel_zoom_step_witness :
    ((1 : ℚ)/10 ≤ 1 ∧ (1 : ℚ) ≤ 3) ∧
      ((onWheel ⟨0, 0, 1, 1/10, 3⟩ (0, 0) (-1)).zoom =
          if (1 : ℚ)/10 ≤ 1 * zoomDelta (-1) ∧ 1 * zoomDelta (-1) ≤ 3
          then 1 * zoomDelta (-1)
          else 1) ∧
        (1 : ℚ)/10 ≤ (onWheel ⟨0, 0, 1, 1/10, 3⟩ (0, 0) (-1)).zoom ∧
          (onWheel ⟨0, 0, 1, 1/10, 3⟩ (0, 0) (-1)).zoom ≤ 3 :=
  ⟨⟨by norm_num, by norm_num⟩,
    onWheel_zoom_step ⟨0, 0, 1, 1/10, 3⟩ (0, 0) (-1) ⟨by norm_num, by norm_num⟩⟩

/-- C5: zoom is anchored at the cursor — whenever a wheel step is
accepted (the new zoom lies within the positive zoom bounds), the world
point under the mouse before the step projects to the same screen
position afterwards, exactly over the rationals. -/
theorem onWheel_anchored (v : Viewport) (mouse : ℚ × ℚ) (deltaY : ℚ)
    (hmin : 0 < v.minZoom)
    (hacc : v.minZoom ≤ v.zoom * zoomDelta deltaY ∧ v.zoom * zoomDelta deltaY ≤ v.maxZoom) :
    worldToScreen (onWheel v mouse deltaY) (screenToWorld v mouse) = mouse := by
  have hd : zoomDelta deltaY ≠ 0 := by
    unfold zoomDelta
    split <;> norm_num
  have hnz : v.zoom * zoomDelta deltaY ≠ 0 :=
    ne_of_gt (lt_of_lt_of_le hmin hacc.1)
  have hz : v.zoom ≠ 0 := fun h => hnz (by rw [h, zero_mul])
  unfold onWheel worldToScreen screenToWorld
  simp only [if_pos hacc]
  apply Prod.ext <;> (simp only []; field_simp; ring)

theorem onWheel_anchored_witness :
    (0 : ℚ) < 1/10 ∧
      ((1 : ℚ)/10 ≤ 1 * zoomDelta (-1) ∧ 1 * zoomDelta (-1) ≤ 3) ∧
      worldToScreen (onWheel ⟨0, 0, 1, 1/10, 3⟩ (400, 300) (-1))
          (screenToWorld ⟨0, 0, 1, 1/10, 3⟩ (400, 300)) = (400, 300) :=
  ⟨by norm_num, ⟨by norm_num [zoomDelta], by norm_num [zoomDelta]⟩,
    onWheel_anchored ⟨0, 0, 1, 1/10, 3⟩ (400, 300) (-1) (by norm_num)
      ⟨by norm_num [zoomDelta], by norm_num [zoomDelta]⟩⟩

/-- C7: starting a connection at a node and finishing it on the same
node returns null, leaves the stored connection mapping and the
endpoint nodes' connection-id lists unchanged, and returns the system
to the idle state. -/
theorem finishConnection_self (cs : ConnectionSystem) (n freshId : String) (now : Int) :
    ((cs.startConnection n).finishConnection (some n) freshId now).1 = none ∧
      ((cs.startConnection n).finishConnection (some n) freshId now).2.connections =
        cs.connections ∧
      ((cs.startConnection n).finishConnection (some n) freshId now).2.nodeConns =
        cs.nodeConns ∧
      ((cs.startConnection n).finishConnection (some n) freshId now).2.isConnecting = false ∧
      ((cs.startConnection n).finishConnection (some n) freshId now).2.connectionStart = none ∧
      ((cs.startConnection n).finishConnection (some n) freshId now).2.tempConnectionEnd = none := by
  simp [ConnectionSystem.startConnection, ConnectionSystem.finishConnection,
    ConnectionSystem.cancelConnection]

/-- C6: once a connection (s, t) has been created, repeating the full
`startConnection(s); finishConnection(t)` sequence returns null, leaves
the store untouched, and the store holds exactly one connection with
this ordered (source, target) pair. -/
theorem finishConnection_duplicate_idem (cs0 : ConnectionSystem) (s t : String)
    (id1 id2 : String) (n1 n2 : Int) (c : Connection)
    (hWF : BucketsWF cs0.connections) (hne : s ≠ t)
    (h1 : ((cs0.startConnection s).finishConnection (some t) id1 n1).1 = some c) :
    ((((cs0.startConnection s).finishConnection (some t) id1 n1).2.startConnection
        s).finishConnection (some t) id2 n2).1 = none ∧
      ((((cs0.startConnection s).finishConnection (some t) id1 n1).2.startConnection
          s).finishConnection (some t) id2 n2).2.connections =
        ((cs0.startConnection s).finishConnection (some t) id1 n1).2.connections ∧
      countConn ((((cs0.startConnection s).finishConnection (some t) id1
          n1).2.startConnection s).finishConnection (some t) id2 n2).2.connections s t = 1 := by
  by_cases hex : connectionExists cs0.connections s t = true
  · exfalso
    simp [ConnectionSystem.startConnection, ConnectionSystem.finishConnection,
      ConnectionSystem.cancelConnection, hne, hex] at h1
  · rw [Bool.not_eq_true] at hex
    have hex1 : connectionExists
        (bucketPush cs0.connections s (Connection.new s t id1 n1)) s t = true :=
      connectionExists_bucketPush _ _ _ _ rfl
    have hcount :
        countConn (bucketPush cs0.connections s (Connection.new s t id1 n1)) s t = 1 := by
      rw [countConn_bucketPush, countConn_zero_of_not_exists cs0.connections s t hWF hex]
      simp [Connection.new]
    simp [ConnectionSystem.startConnection, ConnectionSystem.finishConnection,
      ConnectionSystem.cancelConnection, hne, hex, hex1, hcount]

theorem finishConnection_duplicate_idem_witness :
    (BucketsWF (([] : ConnMap)) ∧ ("a" : String) ≠ "b" ∧
        (((⟨[], false, none, none, [("a", []), ("b", [])]⟩ :
              ConnectionSystem).startConnection "a").finishConnection
            (some "b") "c1" 0).1 = some (Connection.new "a" "b" "c1" 0)) ∧
      (((((⟨[], false, none, none, [("a", []), ("b", [])]⟩ :
              ConnectionSystem).startConnection "a").finishConnection
            (some "b") "c1" 0).2.startConnection "a").finishConnection
          (some "b") "c2" 1).1 = none ∧
        countConn (((((⟨[], false, none, none, [("a", []), ("b", [])]⟩ :
              ConnectionSystem).startConnection "a").finishConnection
            (some "b") "c1" 0).2.startConnection "a").finishConnection
          (some "b") "c2" 1).2.connections "a" "b" = 1 := by
  have hWF : BucketsWF ([] : ConnMap) := ⟨List.nodup_nil, by simp⟩
  have hne : ("a" : String) ≠ "b" := by decide
  have h1 : (((⟨[], false, none, none, [("a", []), ("b", [])]⟩ :
        ConnectionSystem).startConnection "a").finishConnection
      (some "b") "c1" 0).1 = some (Connection.new "a" "b" "c1" 0) := rfl
  have main := finishConnection_duplicate_idem
    ⟨[], false, none, none, [("a", []), ("b", [])]⟩ "a" "b" "c1" "c2" 0 1
    (Connection.new "a" "b" "c1" 0) hWF hne h1
  exact ⟨⟨hWF, hne, h1⟩, main.1, main.2.2⟩

/-- C10: `importFromJSON` first clears the store unconditionally: a
null, undefined or non-array argument leaves the connection store empty
whatever it held before, while an array refills it with exactly the
listed connections, grouped into buckets keyed by their source id (and
every other component of the system state is untouched). -/
theorem importFromJSON_clears_and_groups (cs : ConnectionSystem) :
    ((cs.importFromJSON .jnull).connections = [] ∧
        (cs.importFromJSON .jundefined).connections = [] ∧
        (cs.importFromJSON .jtruthyNonArray).connections = []) ∧
      (∀ docs k,
        alGet (cs.importFromJSON (.jarray docs)).connections k =
          (if ((docs.map Connection.fromJSON).filter (fun c => c.sourceId = k)).isEmpty
           then none
           else some ((docs.map Connection.fromJSON).filter (fun c => c.sourceId = k)))) ∧
      (∀ data, (cs.importFromJSON data).isConnecting = cs.isConnecting ∧
        (cs.importFromJSON data).connectionStart = cs.connectionStart ∧
        (cs.importFromJSON data).nodeConns = cs.nodeConns) := by
  refine ⟨⟨rfl, rfl, rfl⟩, ?_, ?_⟩
  · intro docs k
    have key : ∀ (l : List Connection) (m : ConnMap),
        alGet (l.foldl (fun m c => bucketPush m c.sourceId c) m) k =
          (match alGet m k with
           | some b => some (b ++ l.filter (fun c => c.sourceId = k))
           | none =>
             if (l.filter (fun c => c.sourceId = k)).isEmpty then none
             else some (l.filter (fun c => c.sourceId = k))) := by
      intro l
      induction l with
      | nil =>
        intro m
        cases h : alGet m k <;> simp [h]
      | cons c rest ih =>
        intro m
        simp only [List.foldl_cons]
        rw [ih (bucketPush m c.sourceId c)]
        by_cases hc : c.sourceId = k
        · rw [hc, alGet_bucketPush_same]
          cases h : alGet m k <;>
            simp [h, List.filter_cons, hc]
        · rw [alGet_bucketPush_ne _ _ _ _ (fun h => hc h.symm)]
          cases h : alGet m k <;>
            simp [h, List.filter_cons, hc]
    have : (cs.importFromJSON (.jarray docs)).connections =
        (docs.map Connection.fromJSON).foldl (fun m c => bucketPush m c.sourceId c) [] := by
      simp [ConnectionSystem.importFromJSON, importConnections, List.foldl_map]
    rw [this, key _ []]
    simp [alGet]
  · intro data
    cases data <;> exact ⟨rfl, rfl, rfl⟩

/-- C8 counterexample: the transitions themselves do not enforce the
ancestor-chain invariant.  From a freshly initialized state, a single
`navigateToNode` call whose argument is a node with children that is
not a child of the current (root) node is accepted, and the resulting
stack violates the adjacency invariant. -/
theorem navigation_invariant_counterexample :
    ¬ NavInvariant ((NodeSystem.init "r" "My Application" 0).runNav
        [NavOp.toNode (Node.mk "x" "X" "process" 0 0
          [Node.mk "l" "Leaf" "code" 0 0 [] [] ⟨"", "", 0, 0⟩] [] ⟨"", "", 0, 0⟩)]) := by
  intro h
  have hchain := h.2.2
  simp [NodeSystem.runNav, NodeSystem.applyNav, NodeSystem.navigateToNode,
    NodeSystem.init, Node.new, Node.hasChildren, Node.children,
    List.chain'_cons] at hchain

/-- C8 (amended): starting from an initialized navigation state, after
any sequence of `navigateToNode` / `navigateBack` /
`navigateToStackIndex` transitions in which every `navigateToNode`
argument is a direct child of the then-current node (the application
only passes hit-tested nodes of the current level), the navigation
invariant holds: non-empty stack, current node on top, and every
adjacent stack pair is a (parent, child) pair. -/
theorem navigation_invariant (freshId domainName : String) (now : Int)
    (ops : List NavOp)
    (hD : DisciplinedOps (NodeSystem.init freshId domainName now) ops) :
    NavInvariant ((NodeSystem.init freshId domainName now).runNav ops) :=
  navInvariant_preserved ops _ (init_navInvariant freshId domainName now) hD

theorem navigation_invariant_witness :
    DisciplinedOps (NodeSystem.init "r" "My Application" 0)
        [NavOp.back, NavOp.toIndex 0] ∧
      NavInvariant ((NodeSystem.init "r" "My Application" 0).runNav
        [NavOp.back, NavOp.toIndex 0]) :=
  ⟨⟨trivial, trivial, trivial⟩,
    navigation_invariant "r" "My Application" 0 [NavOp.back, NavOp.toIndex 0]
      ⟨trivial, trivial, trivial⟩⟩

/-- C3: evaluation at the failing input.  Level `A` holds children `B`
and `C` with a stored connection `B → C`; deleting `B` through the full
application delete path succeeds (B disappears from the level and the
deletion is notified), yet the connection with `sourceId = "b"` is
still stored: the delete cascades to no connection. -/
theorem deleteNode_leaves_connections :
    let meta : NodeMeta := ⟨"", "", 0, 0⟩
    let b : Node := .mk "b" "B" "process" (-200) (-100) [] ["c1"] meta
    let c : Node := .mk "c" "C" "logic" 200 (-100) [] ["c1"] meta
    let root : Node := .mk "a" "A" "domain" 0 0 [b, c] [] meta
    let cs1 := (((⟨[], false, none, none, [("b", []), ("c", [])]⟩ :
        ConnectionSystem).startConnection "b").finishConnection (some "c") "c1" 0).2
    let app : App := ⟨⟨root, root, [root], some b⟩, cs1⟩
    ((app.deleteCurrentNode 1).1.nodeSystem.currentNode.children.map Node.id = ["c"]) ∧
      (app.deleteCurrentNode 1).2 = [("Node deleted", "success")] ∧
      (app.deleteCurrentNode 1).1.connectionSystem.connections = cs1.connections ∧
      connectionExists (app.deleteCurrentNode 1).1.connectionSystem.connections "b" "c" =
        true ∧
      countConn (app.deleteCurrentNode 1).1.connectionSystem.connections "b" "c" = 1 := by
  exact ⟨rfl, rfl, rfl, rfl, rfl⟩

/-- C9: import acceptance is exactly the minimum contract — the
source's validation is truthy precisely when the document and its
`version`, `rootNode`, `rootNode.id`, `rootNode.name` are all truthy;
a document failing the check is rejected with the in-memory state
returned unchanged and the invalid-format notification emitted, and a
document passing it is handed to the import callback with no
notification. -/
theorem import_acceptance {σ : Type} (data : JSVal) (callback : σ → σ) (st : σ) :
    ((validateImportData data).truthy = validSpecImport data) ∧
      ((validateImportData data).truthy = false →
        importFromFile data callback st = (st, [("Invalid file format", "error")])) ∧
      ((validateImportData data).truthy = true →
        importFromFile data callback st = (callback st, [])) := by
  refine ⟨?_, ?_, ?_⟩
  · unfold validateImportData validSpecImport
    simp only [truthy_jsAnd, Bool.and_assoc]
  · intro h
    simp [importFromFile, h]
  · intro h
    simp [importFromFile, h]

theorem import_acceptance_witness :
    ((validateImportData (.vobj [("version", .vstr "1.0"),
        ("rootNode", .vobj [("name", .vstr "My App")])])).truthy = false) ∧
      importFromFile (JSVal.vobj [("version", .vstr "1.0"),
          ("rootNode", .vobj [("name", .vstr "My App")])]) (fun n => n + 1) (0 : Nat) =
        (0, [("Invalid file format", "error")]) ∧
      (validateImportData (.vobj [("version", .vstr "1.0"),
          ("rootNode", .vobj [("id", .vstr "r"), ("name", .vstr "My App")])])).truthy = true := by
  have hrej : (validateImportData (.vobj [("version", .vstr "1.0"),
      ("rootNode", .vobj [("name", .vstr "My App")])])).truthy = false := rfl
  exact ⟨hrej,
    (import_acceptance (.vobj [("version", .vstr "1.0"),
      ("rootNode", .vobj [("name", .vstr "My App")])]) (fun n => n + 1) (0 : Nat)).2.1 hrej,
    rfl⟩
